import Mathlib

/-!
Verification of the restart-coordination core of superfsmon
(src/superfsmon/superfsmon.py), via a shallow embedding.

The embedding models the observable behaviour of the coordinator as
traces of control-client calls together with an outcome.  Calls to the
remote supervisor are answered by an environment (oracle) passed in as
plain functions.

Restart cycles run on `threading.Thread` workers spawned by
`on_any_event`, so an abort inside a cycle never ends the process:
`error()`'s `sys.exit(status)` raises SystemExit, which the threading
machinery silently swallows on a worker thread, and an uncaught
exception (such as the NameError raised by the unbound name `xmlrpc`
in the removed-group loop — the module imports `xmlrpc.client` only
under the name `xmlrpclib`) likewise kills only the worker.  Either
way the cycle thread dies with nothing further executed, the process
keeps running, and `restarting_lock` stays held.  The embedding
renders such an abort as a `ThreadAbort` outcome that ends the cycle's
trace.
-/

namespace Superfsmon

/-- One call issued against the supervisor control client
(`rpc.supervisor.*`). -/
inductive Call where
  | reloadConfig
  | getAllProcessInfo
  | getProcessInfo (name : String)
  | stopProcessGroup (gname : String)
  | removeProcessGroup (gname : String)
  | addProcessGroup (gname : String)
  | stopProcess (name : String)
  | startProcess (name : String)
deriving DecidableEq, Repr

/-- A process descriptor as returned by `getAllProcessInfo` /
`getProcessInfo`: the fields `requires_restart` reads. -/
structure Proc where
  name : String
  group : String
  statename : String
  pid : Nat
deriving DecidableEq, Repr

/-- The command-line arguments the coordination core reads
(`args.any`, `args.program`, `args.group`, `args.reload`). -/
structure Args where
  any : Bool
  program : List String
  group : List String
  reload : Bool
deriving DecidableEq, Repr

/-- How a restart-cycle worker thread dies before completing its cycle.
`nameError`: the uncaught NameError raised while building `fails` in
the removed-group loop — the comparison reads `xmlrpc.Faults.FAILED`,
but the module binds only `xmlrpclib` (`import xmlrpc.client as
xmlrpclib`), so evaluating the comprehension's condition on the first
element of a non-empty `stopProcessGroup` result raises, before the
`if fails:` test.  `systemExit status msg`: `error(msg, status)` prints
the message and calls `sys.exit(status)`; the resulting SystemExit is
silently swallowed by `threading`, so it too only kills the worker.
In both cases the process keeps running and `restarting_lock`,
acquired by `commence_restart`, is never released. -/
inductive ThreadAbort where
  | nameError
  | systemExit (status : Nat) (msg : String)
deriving DecidableEq, Repr

/-- The triple returned by `rpc.supervisor.reloadConfig()[0]`:
`added, changed, removed = result[0]`. -/
structure ReloadResult where
  added : List String
  changed : List String
  removed : List String
deriving DecidableEq, Repr

/-- Environment answering the supervisor calls made by `update_groups`:
the `reloadConfig` response (or fault), the per-process status list
returned by `stopProcessGroup` (the removed-group loop only ever gets
as far as observing whether this list is empty — see `ThreadAbort`),
and the process list that the (dead) validation branch would read via
`getAllProcessInfo`. -/
structure UpdateEnv where
  reload : Except String ReloadResult
  stopGroup : String → List Nat
  allProcs : List Proc

/-- `valid_gnames` as computed at the top of `update_groups`:
`set('all'.split())`, then reset to the empty set because `'all'` is in
it. -/
def valid_gnames : List String :=
  let v : List String := ["all"]
  if v.contains "all" then [] else v

/-- The guard `if valid_gnames and gname not in valid_gnames: continue`
at the head of each of the three group loops. -/
def skip_gname (g : String) : Bool :=
  !valid_gnames.isEmpty && !(valid_gnames.contains g)

/-- The `if valid_gnames:` validation block: collect the groups of all
process descriptors plus the added names, and `error` (a swallowed
status-1 SystemExit on the worker thread) on the first `gname` of
`valid_gnames` that is not among them. -/
def check_valid (allProcs : List Proc) (added : List String) :
    Option ThreadAbort :=
  if valid_gnames.isEmpty then none
  else
    let groups := (allProcs.map Proc.group) ++ added
    match valid_gnames.find? (fun g => !(groups.contains g)) with
    | some g => some (ThreadAbort.systemExit 1 ("no such group: " ++ g))
    | none => none

/-- The `getAllProcessInfo` call issued by the validation block when
`valid_gnames` is non-empty. -/
def valid_trace : List Call :=
  if valid_gnames.isEmpty then [] else [Call.getAllProcessInfo]

/-- The `for gname in removed` loop: stop the group, then build
`fails` by filtering the results on `status == xmlrpc.Faults.FAILED`.
The name `xmlrpc` is unbound, so the condition's first evaluation — on
the first element of a non-empty result list — raises NameError and
kills the cycle thread right there; only an empty result list reaches
the `if fails:` test (with `fails = []`), after which the group
definition is removed.  The `error(...)` / `continue` pair behind the
test is unreachable.  Returns the calls issued and the abort, if
any. -/
def process_removed (stopGroup : String → List Nat) :
    List String → List Call × Option ThreadAbort
  | [] => ([], none)
  | g :: rest =>
    if skip_gname g then process_removed stopGroup rest
    else
      let results := stopGroup g
      if !results.isEmpty then
        ([Call.stopProcessGroup g], some ThreadAbort.nameError)
      else
        let (t, f) := process_removed stopGroup rest
        (Call.stopProcessGroup g :: Call.removeProcessGroup g :: t, f)

/-- The `for gname in changed` loop: stop, remove, re-add each group. -/
def process_changed : List String → List Call
  | [] => []
  | g :: rest =>
    if skip_gname g then process_changed rest
    else
      Call.stopProcessGroup g :: Call.removeProcessGroup g ::
        Call.addProcessGroup g :: process_changed rest

/-- The `for gname in added` loop: add each group. -/
def process_added : List String → List Call
  | [] => []
  | g :: rest =>
    if skip_gname g then process_added rest
    else Call.addProcessGroup g :: process_added rest

/-- `update_groups()`: reload the configuration (a fault triggers
`error(...)`, a swallowed status-1 SystemExit that kills the cycle
thread), compute `valid_gnames`, run the validation block, then the
removed / changed / added loops in that order, and return
`added + changed`.  The result is the trace of supervisor calls issued
together with either the returned list or the thread abort that ended
the cycle. -/
def update_groups (env : UpdateEnv) :
    List Call × Except ThreadAbort (List String) :=
  match env.reload with
  | Except.error f =>
    ([Call.reloadConfig],
     Except.error (ThreadAbort.systemExit 1 ("failed to reload config: " ++ f)))
  | Except.ok r =>
    match check_valid env.allProcs r.added with
    | some f => (Call.reloadConfig :: valid_trace, Except.error f)
    | none =>
      let (tr, fr) := process_removed env.stopGroup r.removed
      match fr with
      | some f => (Call.reloadConfig :: valid_trace ++ tr, Except.error f)
      | none =>
        (Call.reloadConfig :: valid_trace ++ tr
           ++ process_changed r.changed ++ process_added r.added,
         Except.ok (r.added ++ r.changed))

/-- Comparison definition for claim C10: the removed-group loop with
the `valid_gnames` skip guard deleted, otherwise identical to
`process_removed` (including the NameError abort on a non-empty stop
result). -/
def process_removed_simple (stopGroup : String → List Nat) :
    List String → List Call × Option ThreadAbort
  | [] => ([], none)
  | g :: rest =>
    let results := stopGroup g
    if !results.isEmpty then
      ([Call.stopProcessGroup g], some ThreadAbort.nameError)
    else
      let (t, f) := process_removed_simple stopGroup rest
      (Call.stopProcessGroup g :: Call.removeProcessGroup g :: t, f)

/-- The changed-group loop with the skip guard deleted. -/
def process_changed_simple : List String → List Call
  | [] => []
  | g :: rest =>
    Call.stopProcessGroup g :: Call.removeProcessGroup g ::
      Call.addProcessGroup g :: process_changed_simple rest

/-- The added-group loop with the skip guard deleted. -/
def process_added_simple : List String → List Call
  | [] => []
  | g :: rest => Call.addProcessGroup g :: process_added_simple rest

/-- `update_groups` with all `valid_gnames` logic deleted. -/
def update_groups_simple (env : UpdateEnv) :
    List Call × Except ThreadAbort (List String) :=
  match env.reload with
  | Except.error f =>
    ([Call.reloadConfig],
     Except.error (ThreadAbort.systemExit 1 ("failed to reload config: " ++ f)))
  | Except.ok r =>
    let (tr, fr) := process_removed_simple env.stopGroup r.removed
    match fr with
    | some f => (Call.reloadConfig :: tr, Except.error f)
    | none =>
      (Call.reloadConfig :: tr
         ++ process_changed_simple r.changed ++ process_added_simple r.added,
       Except.ok (r.added ++ r.changed))

/-- `requires_restart(updated_groups, proc)`: the candidate predicate of
the restart sequencer, exactly the four-way conjunction of the source. -/
def requires_restart (args : Args) (selfPid : Nat)
    (updated_groups : List String) (proc : Proc) : Bool :=
  (proc.statename == "STARTING" || proc.statename == "RUNNING") &&
  (args.any || args.program.contains proc.name
     || args.group.contains proc.group) &&
  (!(updated_groups.contains proc.group)) &&
  (proc.pid != selfPid)

/-- The `group:name` identifier under which a process is stopped and
started: `proc['group'] + ':' + proc['name']`. -/
def proc_id (p : Proc) : String := p.group ++ ":" ++ p.name

/-- Whether a control-client request returned normally (`true`) or
raised an `xmlrpclib.Fault` (`false`). -/
def reqOk {α : Type} (r : Except String α) : Bool :=
  match r with
  | Except.ok _ => true
  | Except.error _ => false

/-- Environment answering the supervisor calls made by
`restart_programs`: the `getAllProcessInfo` list, the outcome of each
`stopProcess` / `startProcess` request by name, and the `statename`
reported by `getProcessInfo` for a name on polling pass `k`. -/
structure RestartEnv where
  procs : List Proc
  stopResult : String → Except String Unit
  startResult : String → Except String Unit
  state : Nat → String → String

/-- Observable result of a piece of the restart sequencer: supervisor
calls issued, warning lines printed (`info('warning: ...')`), and the
names still pending. -/
structure SeqOut where
  calls : List Call
  warns : List String
  pending : List String
deriving DecidableEq, Repr

/-- One pass of the start-phase polling loop
(`for name in list(restart_names)` inside `while restart_names`):
fetch each pending target's status; a target not yet `STOPPED` stays
pending; a `STOPPED` target is issued a start request and removed from
the pending set whether or not the request faults (a fault is logged
as a warning and the target is never retried). -/
def poll_pass (st : String → String) (sr : String → Except String Unit) :
    List String → SeqOut
  | [] => ⟨[], [], []⟩
  | n :: rest =>
    let o := poll_pass st sr rest
    if st n == "STOPPED" then
      match sr n with
      | Except.ok _ =>
        ⟨Call.getProcessInfo n :: Call.startProcess n :: o.calls,
         o.warns, o.pending⟩
      | Except.error e =>
        ⟨Call.getProcessInfo n :: Call.startProcess n :: o.calls,
         ("failed to start process: " ++ e) :: o.warns, o.pending⟩
    else
      ⟨Call.getProcessInfo n :: o.calls, o.warns, n :: o.pending⟩

/-- The `while restart_names:` loop, indexed by fuel (the number of
polling passes the run is observed for) and by the pass counter `k`
feeding the environment; the loop exits exactly when the pending list
is empty, and otherwise runs pass after pass with a 0.1 s sleep in
between. -/
def poll_loop (st : Nat → String → String)
    (sr : String → Except String Unit) :
    Nat → Nat → List String → SeqOut
  | 0, _, pending => ⟨[], [], pending⟩
  | fuel + 1, k, pending =>
    if pending.isEmpty then ⟨[], [], []⟩
    else
      let o := poll_pass (st k) sr pending
      let o2 := poll_loop st sr fuel (k + 1) o.pending
      ⟨o.calls ++ o2.calls, o.warns ++ o2.warns, o2.pending⟩

/-- The initial candidate list `restart_names`: the `group:name` ids of
all processes satisfying `requires_restart`. -/
def restart_names (args : Args) (selfPid : Nat)
    (updated_groups : List String) (procs : List Proc) : List String :=
  (procs.filter (requires_restart args selfPid updated_groups)).map proc_id

/-- The stop phase: issue a non-waiting `stopProcess` for every name in
a copy of `restart_names`; a name whose stop request faults is removed
from the live list with a warning.  The survivors (`pending`) are
exactly the names whose stop request succeeded, in order. -/
def stop_phase (stopResult : String → Except String Unit)
    (names : List String) : SeqOut :=
  ⟨names.map Call.stopProcess,
   names.filterMap (fun n =>
     match stopResult n with
     | Except.ok _ => none
     | Except.error e => some ("failed to stop process: " ++ e)),
   names.filter (fun n => reqOk (stopResult n))⟩

/-- `restart_programs(updated_groups)`: list all processes, select the
candidates, issue all stop requests, then poll until every surviving
target has been started (or the fuel for observing the loop runs out).
The `pending` component is the pending list left when observation ends
(empty iff the loop has terminated). -/
def restart_programs (args : Args) (selfPid : Nat) (env : RestartEnv)
    (updated_groups : List String) (fuel : Nat) : SeqOut :=
  let names := restart_names args selfPid updated_groups env.procs
  let so := stop_phase env.stopResult names
  let lo := poll_loop env.state env.startResult fuel 0 so.pending
  ⟨Call.getAllProcessInfo :: so.calls ++ lo.calls,
   so.warns ++ lo.warns, lo.pending⟩

/-- The body of one restart cycle inside `commence_restart`, after the
locks are settled: if `args.reload` is set run `update_groups` (whose
abort kills the cycle thread, so nothing after it runs), else use
`updated_groups = []`; then run `restart_programs`.  Returns the full
call trace and the thread abort, if one occurred. -/
def cycle_body (args : Args) (selfPid : Nat) (uenv : UpdateEnv)
    (renv : RestartEnv) (fuel : Nat) : List Call × Option ThreadAbort :=
  if args.reload then
    match update_groups uenv with
    | (t, Except.error f) => (t, some f)
    | (t, Except.ok updated) =>
      (t ++ (restart_programs args selfPid renv updated fuel).calls, none)
  else
    ((restart_programs args selfPid renv [] fuel).calls, none)

/-- The phases a change-signal thread moves through in
`commence_restart()`:
`start` — about to try `pre_restarting_lock.acquire(False)`;
`sleeping` — won admission, in the `time.sleep(0.1)` debounce wait;
`waitingExec` — blocked in `restarting_lock.acquire()`;
`entered` — holds `restarting_lock`, about to release
`pre_restarting_lock`;
`executing` — running the cycle body (reconciliation and stop/start);
`doneRan` — released `restarting_lock` and returned;
`doneSkipped` — failed the non-blocking acquire and returned at once. -/
inductive Phase where
  | start
  | sleeping
  | waitingExec
  | entered
  | executing
  | doneRan
  | doneSkipped
deriving DecidableEq, Repr

/-- Global coordination state: the phase of every signal thread
(threads are numbered by `Nat`; all but finitely many stay at `start`),
plus whether `pre_restarting_lock` and `restarting_lock` are held. -/
structure LockSys where
  phase : Nat → Phase
  pre : Bool
  exec : Bool

/-- The atomic transitions of `commence_restart` threads over the two
locks.  `admitWin`/`admitFail` are the non-blocking
`pre_restarting_lock.acquire(False)`; `wake` is the debounce sleep
elapsing; `acquireExec` is `restarting_lock.acquire()` succeeding;
`releasePre` is `pre_restarting_lock.release()`; `finish` is the cycle
body completing and `restarting_lock.release()`. -/
inductive Step : LockSys → LockSys → Prop where
  | admitWin (s : LockSys) (i : Nat) (h : s.phase i = Phase.start)
      (hp : s.pre = false) :
      Step s ⟨Function.update s.phase i Phase.sleeping, true, s.exec⟩
  | admitFail (s : LockSys) (i : Nat) (h : s.phase i = Phase.start)
      (hp : s.pre = true) :
      Step s ⟨Function.update s.phase i Phase.doneSkipped, s.pre, s.exec⟩
  | wake (s : LockSys) (i : Nat) (h : s.phase i = Phase.sleeping) :
      Step s ⟨Function.update s.phase i Phase.waitingExec, s.pre, s.exec⟩
  | acquireExec (s : LockSys) (i : Nat) (h : s.phase i = Phase.waitingExec)
      (he : s.exec = false) :
      Step s ⟨Function.update s.phase i Phase.entered, s.pre, true⟩
  | releasePre (s : LockSys) (i : Nat) (h : s.phase i = Phase.entered) :
      Step s ⟨Function.update s.phase i Phase.executing, false, s.exec⟩
  | finish (s : LockSys) (i : Nat) (h : s.phase i = Phase.executing) :
      Step s ⟨Function.update s.phase i Phase.doneRan, s.pre, false⟩

/-- The initial state: every thread at `start`, both locks free. -/
def lockInit : LockSys := ⟨fun _ => Phase.start, false, false⟩

/-- Reachability from the initial state. -/
def Reachable (s : LockSys) : Prop :=
  Relation.ReflTransGen Step lockInit s

/-- Thread `i` holds `pre_restarting_lock`. -/
def preH (s : LockSys) (i : Nat) : Prop :=
  s.phase i = Phase.sleeping ∨ s.phase i = Phase.waitingExec ∨
    s.phase i = Phase.entered

/-- Thread `i` holds `restarting_lock`. -/
def exeH (s : LockSys) (i : Nat) : Prop :=
  s.phase i = Phase.entered ∨ s.phase i = Phase.executing

/-- The lock-consistency invariant: each lock's `held` flag is true
exactly when some thread holds it, and each lock has at most one
holder. -/
def Inv (s : LockSys) : Prop :=
  (s.pre = true ↔ ∃ i, preH s i) ∧
  (∀ i j, preH s i → preH s j → i = j) ∧
  (s.exec = true ↔ ∃ i, exeH s i) ∧
  (∀ i j, exeH s i → exeH s j → i = j)

/-- Demo run: thread 0 wins admission from the initial state. -/
def demoA : LockSys :=
  ⟨Function.update lockInit.phase 0 Phase.sleeping, true, false⟩

/-- Demo run: thread 0 finishes the debounce sleep. -/
def demoB : LockSys :=
  ⟨Function.update demoA.phase 0 Phase.waitingExec, true, false⟩

/-- Demo run: thread 0 acquires `restarting_lock`. -/
def demoC : LockSys :=
  ⟨Function.update demoB.phase 0 Phase.entered, true, true⟩

/-- Demo run: thread 0 releases `pre_restarting_lock` and runs the
cycle body. -/
def demoD : LockSys :=
  ⟨Function.update demoC.phase 0 Phase.executing, false, true⟩

/-- A concrete environment on which the reload call faults. -/
def envReloadFault : UpdateEnv :=
  ⟨Except.error "SHUTDOWN_STATE", fun _ => [], []⟩

/-- A concrete reload result: group g removed — stopping it returns
one member result whose status is FAILED (code 30), so the result list
is non-empty — group b changed, group a added. -/
def envRemoveFail : UpdateEnv :=
  ⟨Except.ok ⟨["a"], ["b"], ["g"]⟩,
   fun g => if g == "g" then [30] else [],
   []⟩

/-- A concrete reload environment on which every removed group's stop
returns an empty result list, so the removed-group loop completes. -/
def envReloadOk : UpdateEnv :=
  ⟨Except.ok ⟨["a"], ["b"], ["c"]⟩, fun _ => [], []⟩

/-- A concrete reload environment in which removing group c stops one
member successfully: the stop result list is `[80]` (SUCCESS), hence
non-empty and with no FAILED status in it. -/
def envStopSuccess : UpdateEnv :=
  ⟨Except.ok ⟨["a"], ["b"], ["c"]⟩, fun _ => [80], []⟩

/-- A concrete restart environment: `web:web` is RUNNING and reaches
STOPPED on the second polling pass, `db:db` is RUNNING but its stop
request faults, `old:old` is STOPPED from the outset. -/
def envRestart : RestartEnv where
  procs := [⟨"web", "web", "RUNNING", 50⟩,
            ⟨"db", "db", "RUNNING", 51⟩,
            ⟨"old", "old", "STOPPED", 0⟩]
  stopResult := fun n =>
    if n == "db:db" then Except.error "NOT_RUNNING" else Except.ok ()
  startResult := fun _ => Except.ok ()
  state := fun k _ => if k == 0 then "STOPPING" else "STOPPED"

/-- Concrete any-mode arguments with the reload flag set. -/
def argsAny : Args := ⟨true, [], [], true⟩

/-- Concrete any-mode arguments without the reload flag. -/
def argsNoReload : Args := ⟨true, [], [], false⟩

/-- A concrete per-pass status oracle: `a:a` is STOPPED, everything
else still RUNNING. -/
def stDemo : String → String :=
  fun n => if n == "a:a" then "STOPPED" else "RUNNING"

/-- A concrete start-request oracle: starting `a:a` faults. -/
def srDemo : String → Except String Unit :=
  fun n => if n == "a:a" then Except.error "SPAWN_ERROR" else Except.ok ()

/-- A status oracle under which no process ever reaches STOPPED. -/
def stAlways : Nat → String → String := fun _ _ => "RUNNING"

theorem inv_init : Inv lockInit := by
  refine ⟨?_, ?_, ?_, ?_⟩ <;> simp [lockInit, preH, exeH]

theorem inv_step {s t : LockSys} (hs : Inv s) (st : Step s t) : Inv t := by
  obtain ⟨h1, h2, h3, h4⟩ := hs
  cases st with
  | admitWin i h hp =>
    refine ⟨?_, ?_, ?_, ?_⟩
    · simp only [true_iff]
      exact ⟨i, Or.inl (by simp [Function.update_same])⟩
    · intro j k hj hk
      by_cases hji : j = i
      · by_cases hki : k = i
        · simp [hji, hki]
        · exfalso
          have : preH s k := by
            simpa [preH, Function.update_noteq hki] using hk
          have : s.pre = true := h1.mpr ⟨k, this⟩
          simp [hp] at this
      · exfalso
        have : preH s j := by
          simpa [preH, Function.update_noteq hji] using hj
        have : s.pre = true := h1.mpr ⟨j, this⟩
        simp [hp] at this
    · constructor
      · intro he
        obtain ⟨j, hj⟩ := h3.mp he
        refine ⟨j, ?_⟩
        have hji : j ≠ i := by
          rintro rfl
          simp [exeH, h] at hj
        simpa [exeH, Function.update_noteq hji] using hj
      · rintro ⟨j, hj⟩
        by_cases hji : j = i
        · subst hji
          simp [exeH, Function.update_same] at hj
        · exact h3.mpr ⟨j, by simpa [exeH, Function.update_noteq hji] using hj⟩
    · intro j k hj hk
      by_cases hji : j = i
      · subst hji
        simp [exeH, Function.update_same] at hj
      · by_cases hki : k = i
        · subst hki
          simp [exeH, Function.update_same] at hk
        · exact h4 j k (by simpa [exeH, Function.update_noteq hji] using hj)
            (by simpa [exeH, Function.update_noteq hki] using hk)
  | admitFail i h hp =>
    have hpre : ∀ j, preH ⟨Function.update s.phase i Phase.doneSkipped,
        s.pre, s.exec⟩ j ↔ preH s j := by
      intro j
      by_cases hji : j = i
      · subst hji
        simp [preH, Function.update_same, h]
      · simp [preH, Function.update_noteq hji]
    have hexe : ∀ j, exeH ⟨Function.update s.phase i Phase.doneSkipped,
        s.pre, s.exec⟩ j ↔ exeH s j := by
      intro j
      by_cases hji : j = i
      · subst hji
        simp [exeH, Function.update_same, h]
      · simp [exeH, Function.update_noteq hji]
    refine ⟨?_, ?_, ?_, ?_⟩
    · simpa [hpre] using h1
    · intro j k hj hk
      exact h2 j k ((hpre j).mp hj) ((hpre k).mp hk)
    · simpa [hexe] using h3
    · intro j k hj hk
      exact h4 j k ((hexe j).mp hj) ((hexe k).mp hk)
  | wake i h =>
    have hpre : ∀ j, preH ⟨Function.update s.phase i Phase.waitingExec,
        s.pre, s.exec⟩ j ↔ preH s j := by
      intro j
      by_cases hji : j = i
      · subst hji
        simp [preH, Function.update_same, h]
      · simp [preH, Function.update_noteq hji]
    have hexe : ∀ j, exeH ⟨Function.update s.phase i Phase.waitingExec,
        s.pre, s.exec⟩ j ↔ exeH s j := by
      intro j
      by_cases hji : j = i
      · subst hji
        simp [exeH, Function.update_same, h]
      · simp [exeH, Function.update_noteq hji]
    refine ⟨?_, ?_, ?_, ?_⟩
    · simpa [hpre] using h1
    · intro j k hj hk
      exact h2 j k ((hpre j).mp hj) ((hpre k).mp hk)
    · simpa [hexe] using h3
    · intro j k hj hk
      exact h4 j k ((hexe j).mp hj) ((hexe k).mp hk)
  | acquireExec i h he =>
    have hpre : ∀ j, preH ⟨Function.update s.phase i Phase.entered,
        s.pre, true⟩ j ↔ preH s j := by
      intro j
      by_cases hji : j = i
      · subst hji
        simp [preH, Function.update_same, h]
      · simp [preH, Function.update_noteq hji]
    refine ⟨?_, ?_, ?_, ?_⟩
    · simpa [hpre] using h1
    · intro j k hj hk
      exact h2 j k ((hpre j).mp hj) ((hpre k).mp hk)
    · simp only [true_iff]
      exact ⟨i, Or.inl (by simp [Function.update_same])⟩
    · intro j k hj hk
      by_cases hji : j = i
      · by_cases hki : k = i
        · simp [hji, hki]
        · exfalso
          have : exeH s k := by
            simpa [exeH, Function.update_noteq hki] using hk
          have : s.exec = true := h3.mpr ⟨k, this⟩
          simp [he] at this
      · exfalso
        have : exeH s j := by
          simpa [exeH, Function.update_noteq hji] using hj
        have : s.exec = true := h3.mpr ⟨j, this⟩
        simp [he] at this
  | releasePre i h =>
    have hexe : ∀ j, exeH ⟨Function.update s.phase i Phase.executing,
        false, s.exec⟩ j ↔ exeH s j := by
      intro j
      by_cases hji : j = i
      · subst hji
        simp [exeH, Function.update_same, h]
      · simp [exeH, Function.update_noteq hji]
    refine ⟨?_, ?_, ?_, ?_⟩
    · simp only [Bool.false_eq_true, false_iff]
      rintro ⟨j, hj⟩
      by_cases hji : j = i
      · subst hji
        simp [preH, Function.update_same] at hj
      · have hj' : preH s j := by
          simpa [preH, Function.update_noteq hji] using hj
        exact hji (h2 j i hj' (Or.inr (Or.inr h)))
    · intro j k hj hk
      exfalso
      by_cases hji : j = i
      · subst hji
        simp [preH, Function.update_same] at hj
      · have hj' : preH s j := by
          simpa [preH, Function.update_noteq hji] using hj
        exact hji (h2 j i hj' (Or.inr (Or.inr h)))
    · simpa [hexe] using h3
    · intro j k hj hk
      exact h4 j k ((hexe j).mp hj) ((hexe k).mp hk)
  | finish i h =>
    have hpre : ∀ j, preH ⟨Function.update s.phase i Phase.doneRan,
        s.pre, false⟩ j ↔ preH s j := by
      intro j
      by_cases hji : j = i
      · subst hji
        simp [preH, Function.update_same, h]
      · simp [preH, Function.update_noteq hji]
    refine ⟨?_, ?_, ?_, ?_⟩
    · simpa [hpre] using h1
    · intro j k hj hk
      exact h2 j k ((hpre j).mp hj) ((hpre k).mp hk)
    · simp only [Bool.false_eq_true, false_iff]
      rintro ⟨j, hj⟩
      by_cases hji : j = i
      · subst hji
        simp [exeH, Function.update_same] at hj
      · have hj' : exeH s j := by
          simpa [exeH, Function.update_noteq hji] using hj
        exact hji (h4 j i hj' (Or.inr h))
    · intro j k hj hk
      exfalso
      by_cases hji : j = i
      · subst hji
        simp [exeH, Function.update_same] at hj
      · have hj' : exeH s j := by
          simpa [exeH, Function.update_noteq hji] using hj
        exact hji (h4 j i hj' (Or.inr h))

theorem inv_reachable {s : LockSys} (h : Reachable s) : Inv s := by
  induction h with
  | refl => exact inv_init
  | tail _ st ih => exact inv_step ih st

theorem reaches_done_of_entered (s : LockSys) (i : Nat)
    (h : s.phase i = Phase.entered) :
    ∃ t, Relation.ReflTransGen Step s t ∧ t.phase i = Phase.doneRan := by
  refine ⟨⟨Function.update (Function.update s.phase i Phase.executing) i
      Phase.doneRan, false, false⟩, ?_, by simp [Function.update_same]⟩
  have st1 : Step s ⟨Function.update s.phase i Phase.executing, false, s.exec⟩ :=
    Step.releasePre s i h
  have st2 : Step ⟨Function.update s.phase i Phase.executing, false, s.exec⟩
      ⟨Function.update (Function.update s.phase i Phase.executing) i
        Phase.doneRan, false, false⟩ :=
    Step.finish _ i (by simp [Function.update_same])
  exact Relation.ReflTransGen.head st1
    (Relation.ReflTransGen.head st2 Relation.ReflTransGen.refl)

theorem reaches_done_of_waiting_free (s : LockSys) (i : Nat)
    (h : s.phase i = Phase.waitingExec) (he : s.exec = false) :
    ∃ t, Relation.ReflTransGen Step s t ∧ t.phase i = Phase.doneRan := by
  have st1 : Step s ⟨Function.update s.phase i Phase.entered, s.pre, true⟩ :=
    Step.acquireExec s i h he
  obtain ⟨t, rtg, ht⟩ := reaches_done_of_entered
    ⟨Function.update s.phase i Phase.entered, s.pre, true⟩ i
    (by simp [Function.update_same])
  exact ⟨t, Relation.ReflTransGen.head st1 rtg, ht⟩

theorem reaches_done_of_waiting (s : LockSys) (hInv : Inv s) (i : Nat)
    (h : s.phase i = Phase.waitingExec) :
    ∃ t, Relation.ReflTransGen Step s t ∧ t.phase i = Phase.doneRan := by
  rcases he : s.exec with _ | _
  · exact reaches_done_of_waiting_free s i h he
  · obtain ⟨k, hk⟩ := hInv.2.2.1.mp he
    have hki : k ≠ i := by
      rintro rfl
      rcases hk with hk | hk <;> simp [h] at hk
    rcases hk with hk | hk
    · have st1 : Step s ⟨Function.update s.phase k Phase.executing, false,
          s.exec⟩ := Step.releasePre s k hk
      have st2 : Step ⟨Function.update s.phase k Phase.executing, false,
          s.exec⟩ ⟨Function.update (Function.update s.phase k Phase.executing)
            k Phase.doneRan, false, false⟩ :=
        Step.finish _ k (by simp [Function.update_same])
      obtain ⟨t, rtg, ht⟩ := reaches_done_of_waiting_free
        ⟨Function.update (Function.update s.phase k Phase.executing) k
          Phase.doneRan, false, false⟩ i
        (by simp [Function.update_noteq (Ne.symm hki).symm, h,
          Function.update_apply, hki.symm]) rfl
      exact ⟨t, Relation.ReflTransGen.head st1
        (Relation.ReflTransGen.head st2 rtg), ht⟩
    · have st1 : Step s ⟨Function.update s.phase k Phase.doneRan, s.pre,
          false⟩ := Step.finish s k hk
      obtain ⟨t, rtg, ht⟩ := reaches_done_of_waiting_free
        ⟨Function.update s.phase k Phase.doneRan, s.pre, false⟩ i
        (by simp [Function.update_apply, hki.symm, h]) rfl
      exact ⟨t, Relation.ReflTransGen.head st1 rtg, ht⟩

theorem reaches_done_of_admitted (s : LockSys) (hInv : Inv s) (i : Nat)
    (hi : preH s i) :
    ∃ t, Relation.ReflTransGen Step s t ∧ t.phase i = Phase.doneRan := by
  rcases hi with hi | hi | hi
  · have st1 : Step s ⟨Function.update s.phase i Phase.waitingExec, s.pre,
        s.exec⟩ := Step.wake s i hi
    obtain ⟨t, rtg, ht⟩ := reaches_done_of_waiting
      ⟨Function.update s.phase i Phase.waitingExec, s.pre, s.exec⟩
      (inv_step hInv st1) i (by simp [Function.update_same])
    exact ⟨t, Relation.ReflTransGen.head st1 rtg, ht⟩
  · exact reaches_done_of_waiting s hInv i hi
  · exact reaches_done_of_entered s i hi

theorem step_start_absorbed {s t : LockSys} (st : Step s t) (j : Nat)
    (hj : s.phase j = Phase.start) (hpre : s.pre = true) :
    t.phase j = Phase.start ∨ t.phase j = Phase.doneSkipped := by
  cases st with
  | admitWin i h hp => simp [hp] at hpre
  | admitFail i h hp =>
    rcases eq_or_ne j i with rfl | hne
    · right
      simp [Function.update_same]
    · left
      simp [Function.update_noteq hne, hj]
  | wake i h =>
    rcases eq_or_ne j i with rfl | hne
    · simp [hj] at h
    · left
      simp [Function.update_noteq hne, hj]
  | acquireExec i h he =>
    rcases eq_or_ne j i with rfl | hne
    · simp [hj] at h
    · left
      simp [Function.update_noteq hne, hj]
  | releasePre i h =>
    rcases eq_or_ne j i with rfl | hne
    · simp [hj] at h
    · left
      simp [Function.update_noteq hne, hj]
  | finish i h =>
    rcases eq_or_ne j i with rfl | hne
    · simp [hj] at h
    · left
      simp [Function.update_noteq hne, hj]

theorem step_doneRan {s t : LockSys} (st : Step s t) (j : Nat)
    (hj : s.phase j = Phase.doneRan) : t.phase j = Phase.doneRan := by
  cases st with
  | admitWin i h hp =>
    rcases eq_or_ne j i with rfl | hne
    · simp [hj] at h
    · simp [Function.update_noteq hne, hj]
  | admitFail i h hp =>
    rcases eq_or_ne j i with rfl | hne
    · simp [hj] at h
    · simp [Function.update_noteq hne, hj]
  | wake i h =>
    rcases eq_or_ne j i with rfl | hne
    · simp [hj] at h
    · simp [Function.update_noteq hne, hj]
  | acquireExec i h he =>
    rcases eq_or_ne j i with rfl | hne
    · simp [hj] at h
    · simp [Function.update_noteq hne, hj]
  | releasePre i h =>
    rcases eq_or_ne j i with rfl | hne
    · simp [hj] at h
    · simp [Function.update_noteq hne, hj]
  | finish i h =>
    rcases eq_or_ne j i with rfl | hne
    · simp [hj] at h
    · simp [Function.update_noteq hne, hj]

theorem step_doneSkipped {s t : LockSys} (st : Step s t) (j : Nat)
    (hj : s.phase j = Phase.doneSkipped) : t.phase j = Phase.doneSkipped := by
  cases st with
  | admitWin i h hp =>
    rcases eq_or_ne j i with rfl | hne
    · simp [hj] at h
    · simp [Function.update_noteq hne, hj]
  | admitFail i h hp =>
    rcases eq_or_ne j i with rfl | hne
    · simp [hj] at h
    · simp [Function.update_noteq hne, hj]
  | wake i h =>
    rcases eq_or_ne j i with rfl | hne
    · simp [hj] at h
    · simp [Function.update_noteq hne, hj]
  | acquireExec i h he =>
    rcases eq_or_ne j i with rfl | hne
    · simp [hj] at h
    · simp [Function.update_noteq hne, hj]
  | releasePre i h =>
    rcases eq_or_ne j i with rfl | hne
    · simp [hj] at h
    · simp [Function.update_noteq hne, hj]
  | finish i h =>
    rcases eq_or_ne j i with rfl | hne
    · simp [hj] at h
    · simp [Function.update_noteq hne, hj]

theorem rtg_doneSkipped {s t : LockSys} (h : Relation.ReflTransGen Step s t)
    (j : Nat) (hj : s.phase j = Phase.doneSkipped) :
    t.phase j = Phase.doneSkipped := by
  induction h with
  | refl => exact hj
  | tail _ st ih => exact step_doneSkipped st j ih

/-- Claim C3: for every reachable coordination state, (1) no two
threads execute the reconciliation/stop/start cycle body concurrently;
(2) at most one thread at a time is admitted (pending) for the next
cycle; (3) while a thread is admitted, any further arriving signal's
only possible move is to return immediately without running — so of N
concurrent signals in one debounce window exactly one wins admission;
(4) an admitted signal's cycle does execute: some continuation of the
run takes it to completion; (5) a signal arriving while a cycle is
executing (admission gate free) is admitted and runs as a subsequent
cycle; (6) a completed thread stays completed (no thread runs a second
cycle for the same signal), and a rejected signal never executes a
cycle. -/
theorem claim_C3 (s : LockSys) (h : Reachable s) :
    (∀ i j, s.phase i = Phase.executing → s.phase j = Phase.executing →
      i = j) ∧
    (∀ i j, preH s i → preH s j → i = j) ∧
    (∀ i j t, preH s i → s.phase j = Phase.start → Step s t →
      t.phase j = Phase.start ∨ t.phase j = Phase.doneSkipped) ∧
    (∀ i, preH s i →
      ∃ t, Relation.ReflTransGen Step s t ∧ t.phase i = Phase.doneRan) ∧
    (∀ i j, s.phase i = Phase.executing → s.phase j = Phase.start →
      s.pre = false →
      ∃ t u, Step s t ∧ t.phase j = Phase.sleeping ∧
        Relation.ReflTransGen Step t u ∧ u.phase j = Phase.doneRan) ∧
    (∀ j t, s.phase j = Phase.doneRan → Step s t →
      t.phase j = Phase.doneRan) ∧
    (∀ j t, s.phase j = Phase.doneSkipped → Relation.ReflTransGen Step s t →
      t.phase j ≠ Phase.executing) := by
  have hInv := inv_reachable h
  refine ⟨?_, hInv.2.1, ?_, ?_, ?_, ?_, ?_⟩
  · intro i j hi hj
    exact hInv.2.2.2 i j (Or.inr hi) (Or.inr hj)
  · intro i j t hi hj st
    exact step_start_absorbed st j hj (hInv.1.mpr ⟨i, hi⟩)
  · intro i hi
    exact reaches_done_of_admitted s hInv i hi
  · intro i j hi hj hpre
    have st : Step s ⟨Function.update s.phase j Phase.sleeping, true, s.exec⟩ :=
      Step.admitWin s j hj hpre
    obtain ⟨u, rtg, hu⟩ := reaches_done_of_admitted _ (inv_step hInv st) j
      (Or.inl (by simp [Function.update_same]))
    exact ⟨_, u, st, by simp [Function.update_same], rtg, hu⟩
  · intro j t hj st
    exact step_doneRan st j hj
  · intro j t hj rtg
    rw [rtg_doneSkipped rtg j hj]
    simp

/-- Witness for claim C3: a concrete reachable state in which thread 0
is executing a cycle and thread 1 is a freshly arriving signal; the
theorem yields that thread 1 is admitted and completes a subsequent
cycle, and the mutual-exclusion component applies. -/
theorem claim_C3_witness :
    Reachable demoD ∧ demoD.phase 0 = Phase.executing ∧
    demoD.phase 1 = Phase.start ∧ demoD.pre = false ∧
    (∃ t u, Step demoD t ∧ t.phase 1 = Phase.sleeping ∧
      Relation.ReflTransGen Step t u ∧ u.phase 1 = Phase.doneRan) := by
  have st1 : Step lockInit demoA := Step.admitWin lockInit 0 rfl rfl
  have st2 : Step demoA demoB := Step.wake demoA 0 rfl
  have st3 : Step demoB demoC := Step.acquireExec demoB 0 rfl rfl
  have st4 : Step demoC demoD := Step.releasePre demoC 0 rfl
  have hr : Reachable demoD :=
    Relation.ReflTransGen.head st1 (Relation.ReflTransGen.head st2
      (Relation.ReflTransGen.head st3
        (Relation.ReflTransGen.head st4 Relation.ReflTransGen.refl)))
  exact ⟨hr, rfl, rfl, rfl,
    (claim_C3 demoD hr).2.2.2.2.1 0 1 rfl rfl rfl⟩

theorem poll_pass_calls (st : String → String)
    (sr : String → Except String Unit) (p : List String) :
    ∀ c ∈ (poll_pass st sr p).calls, ∃ m, m ∈ p ∧
      (c = Call.getProcessInfo m ∨ c = Call.startProcess m) := by
  induction p with
  | nil => simp [poll_pass]
  | cons n rest ih =>
    intro c hc
    rcases hst : st n == "STOPPED" with _ | _
    · simp only [poll_pass, hst, Bool.false_eq_true, if_false,
        List.mem_cons] at hc
      rcases hc with rfl | hc
      · exact ⟨n, List.mem_cons_self n rest, Or.inl rfl⟩
      · obtain ⟨m, hm, hcm⟩ := ih c hc
        exact ⟨m, List.mem_cons_of_mem n hm, hcm⟩
    · rcases hsr : sr n with e | v <;>
        simp only [poll_pass, hst, if_true, hsr, List.mem_cons] at hc <;>
        rcases hc with rfl | rfl | hc
      · exact ⟨n, List.mem_cons_self n rest, Or.inl rfl⟩
      · exact ⟨n, List.mem_cons_self n rest, Or.inr rfl⟩
      · obtain ⟨m, hm, hcm⟩ := ih c hc
        exact ⟨m, List.mem_cons_of_mem n hm, hcm⟩
      · exact ⟨n, List.mem_cons_self n rest, Or.inl rfl⟩
      · exact ⟨n, List.mem_cons_self n rest, Or.inr rfl⟩
      · obtain ⟨m, hm, hcm⟩ := ih c hc
        exact ⟨m, List.mem_cons_of_mem n hm, hcm⟩

theorem poll_pass_pending (st : String → String)
    (sr : String → Except String Unit) (p : List String) (n : String) :
    n ∈ (poll_pass st sr p).pending ↔ (n ∈ p ∧ ¬ st n = "STOPPED") := by
  induction p with
  | nil => simp [poll_pass]
  | cons m rest ih =>
    rcases hst : st m == "STOPPED" with _ | _
    · have hm : ¬ st m = "STOPPED" := by simpa using hst
      simp only [poll_pass, hst, Bool.false_eq_true, if_false,
        List.mem_cons, ih]
      constructor
      · rintro (rfl | ⟨h1, h2⟩)
        · exact ⟨Or.inl rfl, hm⟩
        · exact ⟨Or.inr h1, h2⟩
      · rintro ⟨rfl | h1, h2⟩
        · exact Or.inl rfl
        · exact Or.inr ⟨h1, h2⟩
    · have hm : st m = "STOPPED" := by simpa using hst
      rcases hsr : sr m with e | v <;>
        simp only [poll_pass, hst, if_true, hsr, List.mem_cons, ih] <;>
        constructor
      · rintro ⟨h1, h2⟩
        exact ⟨Or.inr h1, h2⟩
      · rintro ⟨rfl | h1, h2⟩
        · exact absurd hm h2
        · exact ⟨h1, h2⟩
      · rintro ⟨h1, h2⟩
        exact ⟨Or.inr h1, h2⟩
      · rintro ⟨rfl | h1, h2⟩
        · exact absurd hm h2
        · exact ⟨h1, h2⟩

theorem poll_loop_calls (st : Nat → String → String)
    (sr : String → Except String Unit) :
    ∀ fuel k p, ∀ c ∈ (poll_loop st sr fuel k p).calls, ∃ m, m ∈ p ∧
      (c = Call.getProcessInfo m ∨ c = Call.startProcess m) := by
  intro fuel
  induction fuel with
  | zero => simp [poll_loop]
  | succ fuel ih =>
    intro k p c hc
    rcases hp : p.isEmpty with _ | _
    · simp only [poll_loop, hp, Bool.false_eq_true, if_false,
        List.mem_append] at hc
      rcases hc with hc | hc
      · exact poll_pass_calls (st k) sr p c hc
      · obtain ⟨m, hm, hcm⟩ := ih (k + 1) _ c hc
        exact ⟨m, ((poll_pass_pending (st k) sr p m).mp hm).1, hcm⟩
    · simp [poll_loop, hp] at hc

theorem poll_loop_pending_sub (st : Nat → String → String)
    (sr : String → Except String Unit) :
    ∀ fuel k p n, n ∈ (poll_loop st sr fuel k p).pending → n ∈ p := by
  intro fuel
  induction fuel with
  | zero => simp [poll_loop]
  | succ fuel ih =>
    intro k p n hn
    rcases hp : p.isEmpty with _ | _
    · simp only [poll_loop, hp, Bool.false_eq_true, if_false] at hn
      exact ((poll_pass_pending (st k) sr p n).mp (ih (k + 1) _ n hn)).1
    · simp [poll_loop, hp] at hn

theorem mem_restart_names {args : Args} {selfPid : Nat}
    {updated : List String} {procs : List Proc} {n : String} :
    n ∈ restart_names args selfPid updated procs ↔
      ∃ p, p ∈ procs ∧ requires_restart args selfPid updated p = true ∧
        proc_id p = n := by
  simp only [restart_names, List.mem_map, List.mem_filter]
  constructor
  · rintro ⟨p, ⟨h1, h2⟩, h3⟩
    exact ⟨p, h1, h2, h3⟩
  · rintro ⟨p, h1, h2, h3⟩
    exact ⟨p, ⟨h1, h2⟩, h3⟩

theorem restart_calls_split (args : Args) (selfPid : Nat) (env : RestartEnv)
    (updated : List String) (fuel : Nat) :
    (restart_programs args selfPid env updated fuel).calls =
      Call.getAllProcessInfo ::
        ((restart_names args selfPid updated env.procs).map Call.stopProcess)
        ++ (poll_loop env.state env.startResult fuel 0
            (stop_phase env.stopResult
              (restart_names args selfPid updated env.procs)).pending).calls :=
  rfl

theorem stop_or_start_call_requires (args : Args) (selfPid : Nat)
    (env : RestartEnv) (updated : List String) (fuel : Nat) (n : String)
    (h : Call.stopProcess n ∈ (restart_programs args selfPid env updated fuel).calls ∨
      Call.startProcess n ∈ (restart_programs args selfPid env updated fuel).calls) :
    ∃ p, p ∈ env.procs ∧ requires_restart args selfPid updated p = true ∧
      proc_id p = n := by
  rcases h with h | h <;>
    rw [restart_calls_split] at h <;>
    rcases List.mem_cons.mp h with h | h
  · cases h
  · rcases List.mem_append.mp h with h | h
    · obtain ⟨m, hm, he⟩ := List.mem_map.mp h
      cases he
      exact mem_restart_names.mp hm
    · obtain ⟨m, _, hcm⟩ := poll_loop_calls env.state env.startResult fuel 0 _ _ h
      rcases hcm with hcm | hcm <;> cases hcm
  · cases h
  · rcases List.mem_append.mp h with h | h
    · obtain ⟨m, _, he⟩ := List.mem_map.mp h
      cases he
    · obtain ⟨m, hm, hcm⟩ := poll_loop_calls env.state env.startResult fuel 0 _ _ h
      rcases hcm with hcm | hcm
      · cases hcm
      · injection hcm with he
        subst he
        have hmem : n ∈ restart_names args selfPid updated env.procs :=
          (List.mem_filter.mp hm).1
        exact mem_restart_names.mp hmem

/-- Claim C2: `requires_restart` holds exactly when the process is
STARTING or RUNNING, matches the configured target (any-mode, program
name, or group name), is not in a just-reconciled group, and is not the
coordinator itself; consequently every stop or start request of
`restart_programs` targets a process satisfying `requires_restart`, so
a process whose state is STOPPED or FATAL at selection time (and whose
`group:name` id is not shared with a non-stopped process) is never
issued a stop or start request. -/
theorem claim_C2 (args : Args) (selfPid : Nat) (updated : List String)
    (proc : Proc) (env : RestartEnv) (fuel : Nat) :
    (requires_restart args selfPid updated proc = true ↔
      ((proc.statename = "STARTING" ∨ proc.statename = "RUNNING") ∧
       (args.any = true ∨ proc.name ∈ args.program ∨
         proc.group ∈ args.group) ∧
       proc.group ∉ updated ∧ proc.pid ≠ selfPid)) ∧
    (∀ n, (Call.stopProcess n ∈
        (restart_programs args selfPid env updated fuel).calls ∨
       Call.startProcess n ∈
        (restart_programs args selfPid env updated fuel).calls) →
      ∃ p, p ∈ env.procs ∧
        requires_restart args selfPid updated p = true ∧ proc_id p = n) ∧
    ((proc.statename = "STOPPED" ∨ proc.statename = "FATAL") →
      (∀ q, q ∈ env.procs → proc_id q = proc_id proc →
        q.statename = "STOPPED" ∨ q.statename = "FATAL") →
      Call.stopProcess (proc_id proc) ∉
        (restart_programs args selfPid env updated fuel).calls ∧
      Call.startProcess (proc_id proc) ∉
        (restart_programs args selfPid env updated fuel).calls) := by
  have hiff : ∀ q : Proc, requires_restart args selfPid updated q = true ↔
      ((q.statename = "STARTING" ∨ q.statename = "RUNNING") ∧
       (args.any = true ∨ q.name ∈ args.program ∨ q.group ∈ args.group) ∧
       q.group ∉ updated ∧ q.pid ≠ selfPid) := by
    intro q
    simp [requires_restart, and_assoc, or_assoc]
  refine ⟨hiff proc, ?_, ?_⟩
  · exact stop_or_start_call_requires args selfPid env updated fuel
  · intro hstate hshared
    constructor
    · intro hmem
      obtain ⟨q, hq, hreq, hid⟩ := stop_or_start_call_requires args selfPid
        env updated fuel (proc_id proc) (Or.inl hmem)
      have := ((hiff q).mp hreq).1
      rcases hshared q hq hid with h | h <;> rw [h] at this <;>
        exact absurd this (by decide)
    · intro hmem
      obtain ⟨q, hq, hreq, hid⟩ := stop_or_start_call_requires args selfPid
        env updated fuel (proc_id proc) (Or.inr hmem)
      have := ((hiff q).mp hreq).1
      rcases hshared q hq hid with h | h <;> rw [h] at this <;>
        exact absurd this (by decide)

/-- Witness for claim C2: in a concrete environment the STOPPED process
`old:old` receives neither a stop nor a start request. -/
theorem claim_C2_witness :
    ((⟨"old", "old", "STOPPED", 0⟩ : Proc).statename = "STOPPED" ∨
      (⟨"old", "old", "STOPPED", 0⟩ : Proc).statename = "FATAL") ∧
    (∀ q, q ∈ envRestart.procs →
      proc_id q = proc_id ⟨"old", "old", "STOPPED", 0⟩ →
      q.statename = "STOPPED" ∨ q.statename = "FATAL") ∧
    Call.stopProcess (proc_id ⟨"old", "old", "STOPPED", 0⟩) ∉
      (restart_programs argsAny 1 envRestart [] 3).calls ∧
    Call.startProcess (proc_id ⟨"old", "old", "STOPPED", 0⟩) ∉
      (restart_programs argsAny 1 envRestart [] 3).calls := by
  have h := (claim_C2 argsAny 1 [] ⟨"old", "old", "STOPPED", 0⟩
    envRestart 3).2.2 (Or.inl rfl) (by decide)
  exact ⟨Or.inl rfl, by decide, h.1, h.2⟩

/-- Claim C9: whenever `update_groups` returns successfully, the
returned list is exactly `added + changed`, i.e. its members are
exactly the union of the added and changed group names. -/
theorem claim_C9 (env : UpdateEnv) (r : ReloadResult) (t : List Call)
    (res : List String) (hr : env.reload = Except.ok r)
    (h : update_groups env = (t, Except.ok res)) :
    res = r.added ++ r.changed ∧
    ∀ x, x ∈ res ↔ (x ∈ r.added ∨ x ∈ r.changed) := by
  have hcv : check_valid env.allProcs r.added = none := rfl
  rcases hpr : process_removed env.stopGroup r.removed with ⟨tr, fr⟩
  rcases fr with _ | f
  · simp only [update_groups, hr, hcv, hpr] at h
    have hres : (Except.ok (r.added ++ r.changed) :
        Except ThreadAbort (List String)) = Except.ok res :=
      congrArg Prod.snd h
    cases hres
    exact ⟨rfl, fun x => by simp⟩
  · simp only [update_groups, hr, hcv, hpr] at h
    have hres : (Except.error f : Except ThreadAbort (List String)) =
        Except.ok res := congrArg Prod.snd h
    cases hres

/-- Witness for claim C9: on a concrete successful reload with
`added = [a]`, `changed = [b]`, the reconciler returns `[a, b]`. -/
theorem claim_C9_witness :
    envReloadOk.reload = Except.ok ⟨["a"], ["b"], ["c"]⟩ ∧
    update_groups envReloadOk =
      ([Call.reloadConfig,
        Call.stopProcessGroup "c", Call.removeProcessGroup "c",
        Call.stopProcessGroup "b", Call.removeProcessGroup "b",
        Call.addProcessGroup "b", Call.addProcessGroup "a"],
       Except.ok ["a", "b"]) ∧
    (["a", "b"] = ["a"] ++ ["b"] ∧
     ∀ x, x ∈ (["a", "b"] : List String) ↔
       (x ∈ (["a"] : List String) ∨ x ∈ (["b"] : List String))) :=
  ⟨rfl, rfl,
   claim_C9 envReloadOk ⟨["a"], ["b"], ["c"]⟩
     [Call.reloadConfig,
      Call.stopProcessGroup "c", Call.removeProcessGroup "c",
      Call.stopProcessGroup "b", Call.removeProcessGroup "b",
      Call.addProcessGroup "b", Call.addProcessGroup "a"]
     ["a", "b"] rfl rfl⟩

/-- Claim C7 (code divergence): on a faulting reloadConfig the cycle
issues only the reload call and then dies — `error()` prints the
message and raises `sys.exit(1)`, but since the cycle runs on a
`threading.Thread` worker, the SystemExit is silently swallowed.  So
the claim's second half holds (no group reconciliation and no restart
sequencing for that cycle), while its first half fails: the whole
process does not terminate with a non-zero exit; it keeps running with
`restarting_lock` still held. -/
theorem claim_C7 :
    update_groups envReloadFault =
      ([Call.reloadConfig],
       Except.error (ThreadAbort.systemExit 1
         "failed to reload config: SHUTDOWN_STATE")) ∧
    cycle_body argsAny 1 envReloadFault envRestart 2 =
      ([Call.reloadConfig],
       some (ThreadAbort.systemExit 1
         "failed to reload config: SHUTDOWN_STATE")) :=
  ⟨rfl, rfl⟩

theorem process_removed_eq (sg : String → List Nat) (l : List String) :
    process_removed sg l = process_removed_simple sg l := by
  induction l with
  | nil => rfl
  | cons g rest ih =>
    simp [process_removed, process_removed_simple, skip_gname,
      valid_gnames, ih]

theorem process_changed_eq (l : List String) :
    process_changed l = process_changed_simple l := by
  induction l with
  | nil => rfl
  | cons g rest ih =>
    simp [process_changed, process_changed_simple, skip_gname,
      valid_gnames, ih]

theorem process_added_eq (l : List String) :
    process_added l = process_added_simple l := by
  induction l with
  | nil => rfl
  | cons g rest ih =>
    simp [process_added, process_added_simple, skip_gname,
      valid_gnames, ih]

/-- Claim C10: `valid_gnames` is empty right after its initialization
(it is built as the singleton `all` and then unconditionally reset), so
every `if valid_gnames` filter is a no-op and `update_groups` is
extensionally equal to the same function with all `valid_gnames` logic
deleted. -/
theorem claim_C10 :
    valid_gnames = [] ∧
    ∀ env : UpdateEnv, update_groups env = update_groups_simple env := by
  refine ⟨rfl, ?_⟩
  intro env
  rcases henv : env.reload with f | r
  · simp [update_groups, update_groups_simple, henv]
  · have hcv : check_valid env.allProcs r.added = none := rfl
    simp only [update_groups, update_groups_simple, henv, hcv,
      process_removed_eq, process_changed_eq, process_added_eq]
    rcases process_removed_simple env.stopGroup r.removed with ⟨tr, fr⟩
    rcases fr with _ | f <;>
      simp [valid_trace, valid_gnames]

/-- Claim C1 (code divergence): on a reload result with removed group g
whose stop returns a non-empty member-result list (here one FAILED
status), changed group b and added group a, building `fails` raises
NameError — `xmlrpc` is an unbound name — immediately after stopping
g, before the FAILED test is ever reached, and the cycle thread dies.
The group definition is indeed not removed, but contrary to the claim
there is no skip-and-report and processing does NOT continue: neither
the remaining changed/added groups nor the restart phase is ever
reached (the intended `error`/`continue` path behind the test is
unreachable dead code, and even `error()`'s exit would only be a
swallowed worker-thread SystemExit). -/
theorem claim_C1 :
    update_groups envRemoveFail =
      ([Call.reloadConfig, Call.stopProcessGroup "g"],
       Except.error ThreadAbort.nameError) ∧
    Call.removeProcessGroup "g" ∉ (update_groups envRemoveFail).1 ∧
    Call.stopProcessGroup "b" ∉ (update_groups envRemoveFail).1 ∧
    Call.addProcessGroup "a" ∉ (update_groups envRemoveFail).1 ∧
    (cycle_body argsAny 1 envRemoveFail envRestart 2).2 =
      some ThreadAbort.nameError ∧
    Call.stopProcess "web:web" ∉
      (cycle_body argsAny 1 envRemoveFail envRestart 2).1 := by
  exact ⟨rfl, by decide, by decide, by decide, rfl, by decide⟩

/-- Counterexample to claim C6 as stated: at the concrete reload result
`added = [a]`, `changed = [b]`, `removed = [c]` where stopping c
returns the all-success result list `[80]` — non-empty, and containing
no FAILED (30) status, so the claim's own failure proviso does not
apply — c is nevertheless not removed and no call at all is issued for
the changed group b or the added group a: evaluating the `fails`
comprehension on the non-empty list raises NameError (`xmlrpc` is
unbound) and kills the cycle thread before the remove. -/
theorem claim_C6_counterexample :
    envStopSuccess.reload = Except.ok ⟨["a"], ["b"], ["c"]⟩ ∧
    envStopSuccess.stopGroup "c" = [80] ∧
    (30 : Nat) ∉ envStopSuccess.stopGroup "c" ∧
    Call.removeProcessGroup "c" ∉ (update_groups envStopSuccess).1 ∧
    Call.stopProcessGroup "b" ∉ (update_groups envStopSuccess).1 ∧
    Call.removeProcessGroup "b" ∉ (update_groups envStopSuccess).1 ∧
    Call.addProcessGroup "b" ∉ (update_groups envStopSuccess).1 ∧
    Call.addProcessGroup "a" ∉ (update_groups envStopSuccess).1 ∧
    (update_groups envStopSuccess).2 = Except.error ThreadAbort.nameError := by
  exact ⟨rfl, rfl, by decide, by decide, by decide, by decide, by decide,
    by decide, rfl⟩

theorem process_removed_empty (sg : String → List Nat)
    (l : List String) (h : ∀ g ∈ l, sg g = []) :
    process_removed sg l =
      (l.flatMap (fun g =>
        [Call.stopProcessGroup g, Call.removeProcessGroup g]), none) := by
  induction l with
  | nil => rfl
  | cons g rest ih =>
    have hg := h g (List.mem_cons_self g rest)
    have hrest := ih (fun x hx => h x (List.mem_cons_of_mem g hx))
    simp [process_removed, skip_gname, valid_gnames, hg, hrest]

theorem process_changed_calls (l : List String) :
    process_changed l = l.flatMap (fun g =>
      [Call.stopProcessGroup g, Call.removeProcessGroup g,
       Call.addProcessGroup g]) := by
  induction l with
  | nil => rfl
  | cons g rest ih =>
    simp [process_changed, skip_gname, valid_gnames, ih]

theorem process_added_calls (l : List String) :
    process_added l = l.map Call.addProcessGroup := by
  induction l with
  | nil => rfl
  | cons g rest ih =>
    simp [process_added, skip_gname, valid_gnames, ih]

/-- Claim C6 (amended): provided every removed group's
`stopProcessGroup` call returns an empty per-process result list, the
reconciler emits exactly, in order: stop then remove for each removed
group, then stop, remove, add for each changed group, then add for
each added group — all removed-group processing before all
changed-group processing before all added-group processing.  (As
stated, the claim fails whenever a removed group's stop returns any
non-empty result list, even an all-success one: the unbound name
`xmlrpc` in the `fails` comprehension then raises NameError, killing
the cycle thread before the remove and before all changed/added
processing.) -/
theorem claim_C6 (env : UpdateEnv) (r : ReloadResult)
    (hr : env.reload = Except.ok r)
    (hok : ∀ g ∈ r.removed, env.stopGroup g = []) :
    (update_groups env).1 =
      Call.reloadConfig ::
        (r.removed.flatMap (fun g =>
          [Call.stopProcessGroup g, Call.removeProcessGroup g])
         ++ r.changed.flatMap (fun g =>
          [Call.stopProcessGroup g, Call.removeProcessGroup g,
           Call.addProcessGroup g])
         ++ r.added.map Call.addProcessGroup) := by
  have hcv : check_valid env.allProcs r.added = none := rfl
  simp [update_groups, hr, hcv,
    process_removed_empty env.stopGroup r.removed hok,
    process_changed_calls, process_added_calls, valid_trace, valid_gnames]

/-- Witness for claim C6 (amended): the concrete reload environment
whose removed-group stop returns an empty result list yields exactly
the claimed call sequence. -/
theorem claim_C6_witness :
    envReloadOk.reload = Except.ok ⟨["a"], ["b"], ["c"]⟩ ∧
    (∀ g ∈ (["c"] : List String), envReloadOk.stopGroup g = []) ∧
    (update_groups envReloadOk).1 =
      Call.reloadConfig ::
        ((["c"] : List String).flatMap (fun g =>
          [Call.stopProcessGroup g, Call.removeProcessGroup g])
         ++ (["b"] : List String).flatMap (fun g =>
          [Call.stopProcessGroup g, Call.removeProcessGroup g,
           Call.addProcessGroup g])
         ++ (["a"] : List String).map Call.addProcessGroup) :=
  ⟨rfl, by decide,
   claim_C6 envReloadOk ⟨["a"], ["b"], ["c"]⟩ rfl (by decide)⟩

theorem poll_pass_start_mem (st : String → String)
    (sr : String → Except String Unit) (p : List String) (n : String) :
    Call.startProcess n ∈ (poll_pass st sr p).calls ↔
      (n ∈ p ∧ st n = "STOPPED") := by
  induction p with
  | nil => simp [poll_pass]
  | cons m rest ih =>
    rcases hst : st m == "STOPPED" with _ | _
    · have hm : ¬ st m = "STOPPED" := by simpa using hst
      simp only [poll_pass, hst, Bool.false_eq_true, if_false,
        List.mem_cons, ih]
      constructor
      · rintro (he | ⟨h1, h2⟩)
        · cases he
        · exact ⟨Or.inr h1, h2⟩
      · rintro ⟨rfl | h1, h2⟩
        · exact absurd h2 hm
        · exact Or.inr ⟨h1, h2⟩
    · have hm : st m = "STOPPED" := by simpa using hst
      rcases hsr : sr m with e | v <;>
        simp only [poll_pass, hst, if_true, hsr, List.mem_cons, ih] <;>
        constructor
      · rintro (he | he | ⟨h1, h2⟩)
        · cases he
        · injection he with he
          exact ⟨Or.inl he, he ▸ hm⟩
        · exact ⟨Or.inr h1, h2⟩
      · rintro ⟨rfl | h1, h2⟩
        · exact Or.inr (Or.inl rfl)
        · exact Or.inr (Or.inr ⟨h1, h2⟩)
      · rintro (he | he | ⟨h1, h2⟩)
        · cases he
        · injection he with he
          exact ⟨Or.inl he, he ▸ hm⟩
        · exact ⟨Or.inr h1, h2⟩
      · rintro ⟨rfl | h1, h2⟩
        · exact Or.inr (Or.inl rfl)
        · exact Or.inr (Or.inr ⟨h1, h2⟩)

theorem poll_pass_indep (st : String → String)
    (sr sr' : String → Except String Unit) (p : List String) :
    (poll_pass st sr p).calls = (poll_pass st sr' p).calls ∧
    (poll_pass st sr p).pending = (poll_pass st sr' p).pending := by
  induction p with
  | nil => exact ⟨rfl, rfl⟩
  | cons m rest ih =>
    rcases hst : st m == "STOPPED" with _ | _
    · simp [poll_pass, hst, ih.1, ih.2]
    · rcases hsr : sr m with e | v <;> rcases hsr' : sr' m with e' | v' <;>
        simp [poll_pass, hst, hsr, hsr', ih.1, ih.2]

/-- Claim C4: the cycle's call trace is all stop requests first,
followed by a remainder containing no stop request; on each polling
pass a pending target whose fetched state is STOPPED is issued a start
request and removed from the pending set, a target not yet STOPPED is
neither started nor removed; the calls issued and the pending set of a
pass are identical for any start-request outcomes (a faulted start
only adds a warning — the target is abandoned either way); and a
target no longer pending never receives a start request in the
remaining passes. -/
theorem claim_C4 (args : Args) (selfPid : Nat) (env : RestartEnv)
    (updated : List String) (fuel : Nat) (st : String → String)
    (sr sr' : String → Except String Unit) (stk : Nat → String → String)
    (p : List String) (n : String) (k : Nat) :
    (∃ rest, (restart_programs args selfPid env updated fuel).calls =
        Call.getAllProcessInfo ::
          ((restart_names args selfPid updated env.procs).map
            Call.stopProcess) ++ rest ∧
        ∀ m, Call.stopProcess m ∉ rest) ∧
    (n ∈ p → st n = "STOPPED" →
      Call.startProcess n ∈ (poll_pass st sr p).calls ∧
      n ∉ (poll_pass st sr p).pending) ∧
    (n ∈ p → st n ≠ "STOPPED" →
      Call.startProcess n ∉ (poll_pass st sr p).calls ∧
      n ∈ (poll_pass st sr p).pending) ∧
    ((poll_pass st sr p).calls = (poll_pass st sr' p).calls ∧
     (poll_pass st sr p).pending = (poll_pass st sr' p).pending) ∧
    (n ∉ p → Call.startProcess n ∉ (poll_loop stk sr fuel k p).calls ∧
      n ∉ (poll_loop stk sr fuel k p).pending) := by
  refine ⟨?_, ?_, ?_, poll_pass_indep st sr sr' p, ?_⟩
  · refine ⟨_, restart_calls_split args selfPid env updated fuel, ?_⟩
    intro m hm
    obtain ⟨a, _, hca⟩ := poll_loop_calls env.state env.startResult fuel 0
      _ _ hm
    rcases hca with hca | hca <;> cases hca
  · intro hn hst
    exact ⟨(poll_pass_start_mem st sr p n).mpr ⟨hn, hst⟩,
      fun hmem => ((poll_pass_pending st sr p n).mp hmem).2 hst⟩
  · intro hn hst
    refine ⟨fun hmem => hst ((poll_pass_start_mem st sr p n).mp hmem).2,
      (poll_pass_pending st sr p n).mpr ⟨hn, hst⟩⟩
  · intro hn
    constructor
    · intro hmem
      obtain ⟨a, ha, hca⟩ := poll_loop_calls stk sr fuel k _ _ hmem
      rcases hca with hca | hca
      · cases hca
      · injection hca with he
        exact hn (he ▸ ha)
    · intro hmem
      exact hn (poll_loop_pending_sub stk sr fuel k p n hmem)

/-- Witness for claim C4: the concrete pass over pending `a:a` (already
STOPPED, its start faulting) and `b:b` (still RUNNING): `a:a` is
started and abandoned, `b:b` stays pending and is not started;
`c:c`, not pending, is never started. -/
theorem claim_C4_witness :
    ("a:a" ∈ (["a:a", "b:b"] : List String) ∧ stDemo "a:a" = "STOPPED" ∧
     Call.startProcess "a:a" ∈ (poll_pass stDemo srDemo ["a:a", "b:b"]).calls ∧
     "a:a" ∉ (poll_pass stDemo srDemo ["a:a", "b:b"]).pending) ∧
    ("b:b" ∈ (["a:a", "b:b"] : List String) ∧ stDemo "b:b" ≠ "STOPPED" ∧
     Call.startProcess "b:b" ∉ (poll_pass stDemo srDemo ["a:a", "b:b"]).calls ∧
     "b:b" ∈ (poll_pass stDemo srDemo ["a:a", "b:b"]).pending) ∧
    ("c:c" ∉ (["a:a", "b:b"] : List String) ∧
     Call.startProcess "c:c" ∉
      (poll_loop envRestart.state srDemo 3 0 ["a:a", "b:b"]).calls ∧
     "c:c" ∉ (poll_loop envRestart.state srDemo 3 0 ["a:a", "b:b"]).pending) := by
  have h1 := (claim_C4 argsAny 1 envRestart [] 3 stDemo srDemo srDemo
    envRestart.state ["a:a", "b:b"] "a:a" 0).2.1 (by decide) (by decide)
  have h2 := (claim_C4 argsAny 1 envRestart [] 3 stDemo srDemo srDemo
    envRestart.state ["a:a", "b:b"] "b:b" 0).2.2.1 (by decide) (by decide)
  have h3 := (claim_C4 argsAny 1 envRestart [] 3 stDemo srDemo srDemo
    envRestart.state ["a:a", "b:b"] "c:c" 0).2.2.2.2 (by decide)
  exact ⟨⟨by decide, by decide, h1.1, h1.2⟩,
    ⟨by decide, by decide, h2.1, h2.2⟩,
    ⟨by decide, h3.1, h3.2⟩⟩

theorem restart_warns_split (args : Args) (selfPid : Nat) (env : RestartEnv)
    (updated : List String) (fuel : Nat) :
    (restart_programs args selfPid env updated fuel).warns =
      (stop_phase env.stopResult
        (restart_names args selfPid updated env.procs)).warns
      ++ (poll_loop env.state env.startResult fuel 0
          (stop_phase env.stopResult
            (restart_names args selfPid updated env.procs)).pending).warns :=
  rfl

/-- Claim C5: if the stop request for target n faults, n still receives
its stop request, the fault is logged as a warning, n is dropped from
the surviving restart set and receives no start request in the cycle,
while every target whose stop succeeded stays in the restart set; and
the cycle completes without a fatal exit. -/
theorem claim_C5 (args : Args) (selfPid : Nat) (env : RestartEnv)
    (updated : List String) (fuel : Nat) (uenv : UpdateEnv) (n e : String)
    (hn : n ∈ restart_names args selfPid updated env.procs)
    (hf : env.stopResult n = Except.error e) :
    Call.stopProcess n ∈
      (restart_programs args selfPid env updated fuel).calls ∧
    ("failed to stop process: " ++ e) ∈
      (restart_programs args selfPid env updated fuel).warns ∧
    n ∉ (stop_phase env.stopResult
      (restart_names args selfPid updated env.procs)).pending ∧
    Call.startProcess n ∉
      (restart_programs args selfPid env updated fuel).calls ∧
    (∀ m, m ∈ restart_names args selfPid updated env.procs →
      reqOk (env.stopResult m) = true →
      m ∈ (stop_phase env.stopResult
        (restart_names args selfPid updated env.procs)).pending) ∧
    (args.reload = false → (cycle_body args selfPid uenv env fuel).2 = none) := by
  have hnotp : n ∉ (stop_phase env.stopResult
      (restart_names args selfPid updated env.procs)).pending := by
    intro hmem
    have h2 := (List.mem_filter.mp hmem).2
    rw [hf] at h2
    cases h2
  refine ⟨?_, ?_, hnotp, ?_, ?_, ?_⟩
  · rw [restart_calls_split]
    exact List.mem_cons_of_mem _ (List.mem_append_left _
      (List.mem_map.mpr ⟨n, hn, rfl⟩))
  · rw [restart_warns_split]
    refine List.mem_append_left _ (List.mem_filterMap.mpr ⟨n, hn, ?_⟩)
    rw [hf]
  · rw [restart_calls_split]
    intro hmem
    rcases List.mem_cons.mp hmem with h | h
    · cases h
    · rcases List.mem_append.mp h with h | h
      · obtain ⟨m, _, he⟩ := List.mem_map.mp h
        cases he
      · obtain ⟨m, hm, hca⟩ := poll_loop_calls env.state env.startResult
          fuel 0 _ _ h
        rcases hca with hca | hca
        · cases hca
        · injection hca with he
          exact hnotp (he ▸ hm)
  · intro m hm hok
    exact List.mem_filter.mpr ⟨hm, hok⟩
  · intro hrel
    simp [cycle_body, hrel]

/-- Witness for claim C5: the concrete cycle in which stopping `db:db`
faults with NOT_RUNNING while `web:web` stops and restarts normally. -/
theorem claim_C5_witness :
    ("db:db" ∈ restart_names argsNoReload 1 [] envRestart.procs) ∧
    envRestart.stopResult "db:db" = Except.error "NOT_RUNNING" ∧
    argsNoReload.reload = false ∧
    Call.stopProcess "db:db" ∈
      (restart_programs argsNoReload 1 envRestart [] 3).calls ∧
    ("failed to stop process: NOT_RUNNING") ∈
      (restart_programs argsNoReload 1 envRestart [] 3).warns ∧
    "db:db" ∉ (stop_phase envRestart.stopResult
      (restart_names argsNoReload 1 [] envRestart.procs)).pending ∧
    Call.startProcess "db:db" ∉
      (restart_programs argsNoReload 1 envRestart [] 3).calls ∧
    "web:web" ∈ (stop_phase envRestart.stopResult
      (restart_names argsNoReload 1 [] envRestart.procs)).pending ∧
    (cycle_body argsNoReload 1 envReloadOk envRestart 3).2 = none := by
  have h := claim_C5 argsNoReload 1 envRestart [] 3 envReloadOk
    "db:db" "NOT_RUNNING" (by decide) rfl
  exact ⟨by decide, rfl, rfl, h.1, h.2.1, h.2.2.1, h.2.2.2.1,
    h.2.2.2.2.1 "web:web" (by decide) rfl, h.2.2.2.2.2 rfl⟩

theorem poll_loop_term (st : Nat → String → String)
    (sr : String → Except String Unit) :
    ∀ m k p, (∀ n ∈ p, ∃ j, j < m ∧ st (k + j) n = "STOPPED") →
      (poll_loop st sr m k p).pending = [] := by
  intro m
  induction m with
  | zero =>
    intro k p h
    cases p with
    | nil => rfl
    | cons a l =>
      obtain ⟨j, hj, _⟩ := h a (List.mem_cons_self a l)
      exact absurd hj (Nat.not_lt_zero j)
  | succ m ih =>
    intro k p h
    rcases hp : p.isEmpty with _ | _
    · simp only [poll_loop, hp, Bool.false_eq_true, if_false]
      apply ih (k + 1)
      intro n hn
      obtain ⟨hnp, hnst⟩ := (poll_pass_pending (st k) sr p n).mp hn
      obtain ⟨j, hjm, hst⟩ := h n hnp
      cases j with
      | zero =>
        rw [Nat.add_zero] at hst
        exact absurd hst hnst
      | succ j' =>
        refine ⟨j', Nat.lt_of_succ_lt_succ hjm, ?_⟩
        have harith : k + 1 + j' = k + (j' + 1) := by omega
        rw [harith]
        exact hst
    · simp [poll_loop, hp]

theorem uniform_bound (st : Nat → String → String) (p : List String)
    (h : ∀ n ∈ p, ∃ k, st k n = "STOPPED") :
    ∃ m, ∀ n ∈ p, ∃ j, j < m ∧ st j n = "STOPPED" := by
  induction p with
  | nil => exact ⟨0, by simp⟩
  | cons a l ih =>
    obtain ⟨ka, hka⟩ := h a (List.mem_cons_self a l)
    obtain ⟨m, hm⟩ := ih (fun n hn => h n (List.mem_cons_of_mem a hn))
    refine ⟨max (ka + 1) m, ?_⟩
    intro n hn
    rcases List.mem_cons.mp hn with rfl | hn
    · exact ⟨ka, lt_of_lt_of_le (Nat.lt_succ_self ka) (le_max_left _ _), hka⟩
    · obtain ⟨j, hj, hs⟩ := hm n hn
      exact ⟨j, lt_of_lt_of_le hj (le_max_right _ _), hs⟩

theorem poll_loop_stuck (st : Nat → String → String)
    (sr : String → Except String Unit) :
    ∀ m k p n, n ∈ p → (∀ j, st j n ≠ "STOPPED") →
      n ∈ (poll_loop st sr m k p).pending := by
  intro m
  induction m with
  | zero =>
    intro k p n hn _
    simpa [poll_loop] using hn
  | succ m ih =>
    intro k p n hn hstuck
    have hp : p.isEmpty = false := by
      cases p with
      | nil => cases hn
      | cons a l => rfl
    simp only [poll_loop, hp, Bool.false_eq_true, if_false]
    exact ih (k + 1) _ n
      ((poll_pass_pending (st k) sr p n).mpr ⟨hn, hstuck k⟩) hstuck

/-- Claim C8: the start-phase polling loop terminates exactly when the
pending set empties: if every surviving target eventually reports
STOPPED on some pass, some number of passes empties the pending set;
if some surviving target never reports STOPPED, the pending set is
non-empty after every number of passes — the loop never terminates, as
there is no overall timeout. -/
theorem claim_C8 (st : Nat → String → String)
    (sr : String → Except String Unit) (survivors : List String) :
    ((∀ n ∈ survivors, ∃ k, st k n = "STOPPED") →
      ∃ fuel, (poll_loop st sr fuel 0 survivors).pending = []) ∧
    ((∃ n, n ∈ survivors ∧ ∀ k, st k n ≠ "STOPPED") →
      ∀ fuel, (poll_loop st sr fuel 0 survivors).pending ≠ []) := by
  constructor
  · intro h
    obtain ⟨m, hm⟩ := uniform_bound st survivors h
    refine ⟨m, poll_loop_term st sr m 0 survivors ?_⟩
    intro n hn
    obtain ⟨j, h1, h2⟩ := hm n hn
    exact ⟨j, h1, by rwa [Nat.zero_add]⟩
  · rintro ⟨n, hn, hstuck⟩ fuel hempty
    have hmem := poll_loop_stuck st sr fuel 0 survivors n hn hstuck
    rw [hempty] at hmem
    cases hmem

/-- Witness for claim C8: with the demo status oracle (everything
STOPPED from pass 1 on) the loop over `web:web` empties; with a target
that stays RUNNING forever it never does. -/
theorem claim_C8_witness :
    (∀ n ∈ (["web:web"] : List String),
      ∃ k, envRestart.state k n = "STOPPED") ∧
    (∃ fuel, (poll_loop envRestart.state srDemo fuel 0
      ["web:web"]).pending = []) ∧
    (∃ n, n ∈ (["x"] : List String) ∧ ∀ k, stAlways k n ≠ "STOPPED") ∧
    (∀ fuel, (poll_loop stAlways srDemo fuel 0 ["x"]).pending ≠ []) := by
  have h1 : ∀ n ∈ (["web:web"] : List String),
      ∃ k, envRestart.state k n = "STOPPED" := fun n _ => ⟨1, rfl⟩
  have h2 : ∃ n, n ∈ (["x"] : List String) ∧
      ∀ k, stAlways k n ≠ "STOPPED" :=
    ⟨"x", by decide, fun k => by simp [stAlways]⟩
  exact ⟨h1, (claim_C8 envRestart.state srDemo ["web:web"]).1 h1,
    h2, (claim_C8 stAlways srDemo ["x"]).2 h2⟩

end Superfsmon
